import Mathlib

/-!
Shallow embedding of the `benchrun` micro-benchmarking library.

Numbers: Python floats are modelled as exact rationals (`ℚ`); the one
genuinely irrational computation, `statistics.stdev`'s square root, is
modelled in `ℝ` via `Real.sqrt`.  Python dicts (insertion ordered) are
modelled as association lists, and `min(..., key=f)` / `max(..., key=f)`
as folds that keep the first extremal element, matching CPython.
-/

namespace Benchrun

/-! ### `statistics` module functions used by `benchrun/results.py` -/

namespace statistics

/-- Source `statistics.mean(data)`: arithmetic average. -/
def mean (l : List ℚ) : ℚ := l.sum / (l.length : ℚ)

/-- Ascending sort of a list, as produced by Python's `sorted` (a stable
sort; `List.mergeSort` is stable as well). -/
def pySorted (l : List ℚ) : List ℚ := l.mergeSort (fun a b => a ≤ b)

/-- Source `statistics.median(data)`: middle element of the sorted data for odd
length, average of the two middle elements for even length. -/
def median (l : List ℚ) : ℚ :=
  let s := pySorted l
  let n := l.length
  if n % 2 = 1 then s.getD (n / 2) 0
  else (s.getD (n / 2 - 1) 0 + s.getD (n / 2) 0) / 2

/-- The Bessel-corrected sample variance used by `statistics.stdev`:
sum of squared deviations from the mean, divided by `n - 1`. -/
def sampleVariance (l : List ℚ) : ℚ :=
  ((l.map (fun x => (x - mean l) ^ 2)).sum) / ((l.length : ℚ) - 1)

/-- Source `statistics.stdev(data)`: square root of the Bessel-corrected sample
variance. -/
noncomputable def stdev (l : List ℚ) : ℝ := Real.sqrt ((sampleVariance l : ℚ) : ℝ)

end statistics

/-- Python's builtin `min` over a nonempty list (`results.py` line 50);
the `[] => 0` case is unreachable there because `__post_init__` rejects
empty duration lists. -/
def pyListMin : List ℚ → ℚ
  | [] => 0
  | x :: xs => xs.foldl min x

/-- Python's builtin `max` over a nonempty list (`results.py` line 51). -/
def pyListMax : List ℚ → ℚ
  | [] => 0
  | x :: xs => xs.foldl max x

/-- Python's `int()` applied to a nonnegative float truncates toward zero
(`results.py` line 73, `f = int(k)`). -/
def pyInt (q : ℚ) : ℤ := if 0 ≤ q then ⌊q⌋ else ⌈q⌉

/-- Source `BenchmarkResults._percentile(sorted_data, percentile)` from
`benchrun/results.py`: linear-interpolation percentile on pre-sorted data.
Out-of-range list reads are modelled with `getD`; the proofs establish the
indices are in range for `0 ≤ p ≤ 100`. -/
def percentile (sorted_data : List ℚ) (p : ℚ) : ℚ :=
  if sorted_data = [] then 0
  else
    let k : ℚ := ((sorted_data.length : ℚ) - 1) * (p / 100)
    let f : ℤ := pyInt k
    let c : ℤ := f + 1
    if (sorted_data.length : ℤ) ≤ c then sorted_data.getLastD 0
    else
      let d0 := sorted_data.getD f.toNat 0
      let d1 := sorted_data.getD c.toNat 0
      d0 + (d1 - d0) * (k - (f : ℚ))

/-- Modelled from the spec (§4.2): the "linear" percentile method in the
spec's own words, used to compare the code's `percentile` against the
specified formula: rank `k = (N-1) * p/100`, `f = floor(k)`, `c = f+1`;
if `c` exceeds the last index return the last element, else interpolate. -/
def percentileSpec (sorted_data : List ℚ) (p : ℚ) : ℚ :=
  let N := sorted_data.length
  let k : ℚ := ((N : ℚ) - 1) * (p / 100)
  let f : ℤ := ⌊k⌋
  let c : ℤ := f + 1
  if (N : ℤ) - 1 < c then sorted_data.getLastD 0
  else sorted_data.getD f.toNat 0 +
    (sorted_data.getD c.toNat 0 - sorted_data.getD f.toNat 0) * (k - (f : ℚ))

/-- The `BenchmarkResults` dataclass of `benchrun/results.py`.  The
statistic fields computed once by `__post_init__` are pure functions of
`durations` and are modelled as the accessor functions below; the two
fields mutated later by the comparator (`speedup`,
`relative_performance`) are `Option` fields defaulting to `None`. -/
structure BenchmarkResults where
  name : String
  durations : List ℚ
  runs : ℕ
  warmup : ℕ
  speedup : Option ℚ := none
  relative_performance : Option ℚ := none
deriving DecidableEq

/-- Source `self.mean = statistics.mean(self.durations)`. -/
def BenchmarkResults.mean (r : BenchmarkResults) : ℚ := statistics.mean r.durations

/-- Source `self.median = statistics.median(self.durations)`. -/
def BenchmarkResults.median (r : BenchmarkResults) : ℚ := statistics.median r.durations

/-- Source `self.std_dev = statistics.stdev(self.durations) if len(self.durations) > 1 else 0.0`. -/
noncomputable def BenchmarkResults.std_dev (r : BenchmarkResults) : ℝ :=
  if 1 < r.durations.length then statistics.stdev r.durations else 0

/-- Source `self.min_time = min(self.durations)`. -/
def BenchmarkResults.min_time (r : BenchmarkResults) : ℚ := pyListMin r.durations

/-- Source `self.max_time = max(self.durations)`. -/
def BenchmarkResults.max_time (r : BenchmarkResults) : ℚ := pyListMax r.durations

/-- Source `self.percentile_95 = self._percentile(sorted(self.durations), 95)`. -/
def BenchmarkResults.percentile_95 (r : BenchmarkResults) : ℚ :=
  percentile (statistics.pySorted r.durations) 95

/-- Source `self.percentile_99 = self._percentile(sorted(self.durations), 99)`. -/
def BenchmarkResults.percentile_99 (r : BenchmarkResults) : ℚ :=
  percentile (statistics.pySorted r.durations) 99

/-- Source `getattr(result, metric)` for the metric attribute names that the
comparison and display code reads dynamically; other attribute names are
never passed at those call sites (modelled by the default 0). -/
def getattrMetric (r : BenchmarkResults) (attr : String) : ℚ :=
  if attr = "mean" then r.mean
  else if attr = "median" then r.median
  else if attr = "min_time" then r.min_time
  else if attr = "max_time" then r.max_time
  else 0

/-! ### `benchrun/comparison.py` -/

/-- Error kinds of the spec's error model (§7); the Python code raises
`TypeError` (TypeMismatch) and `ValueError` with distinguishing messages
for the remaining kinds. -/
inductive ErrKind where
  | typeMismatch
  | valueRange
  | emptyInput
  | invalidMetric
  | notExecuted
deriving DecidableEq

/-- Python's `min(xs, key=f)`: first element with minimal key. -/
def pyMinBy {α : Type} (f : α → ℚ) : List α → Option α
  | [] => none
  | x :: xs => some (xs.foldl (fun acc y => if f y < f acc then y else acc) x)

/-- Python's `max(xs, key=f)`: first element with maximal key. -/
def pyMaxBy {α : Type} (f : α → ℚ) : List α → Option α
  | [] => none
  | x :: xs => some (xs.foldl (fun acc y => if f acc < f y then y else acc) x)

/-- Source `calculate_comparisons(results)` from `benchrun/comparison.py`,
returning the updated association list instead of mutating in place. -/
def calculate_comparisons (results : List (String × BenchmarkResults)) :
    List (String × BenchmarkResults) :=
  if results = [] then results
  else
    let fastest_time : ℚ :=
      ((pyMinBy (fun p => p.2.mean) results).map (fun p => p.2.mean)).getD 0
    results.map (fun p =>
      if 0 < p.2.mean then
        (p.1, { p.2 with
                speedup := some (fastest_time / p.2.mean),
                relative_performance := some (fastest_time / p.2.mean * 100) })
      else
        (p.1, { p.2 with speedup := some 1, relative_performance := some 100 }))

/-- Source `get_fastest(results, metric)` from `benchrun/comparison.py`. -/
def get_fastest (results : List (String × BenchmarkResults)) (metric : String) :
    Except ErrKind String :=
  if results = [] then .error .emptyInput
  else if metric ∈ ["mean", "median", "min", "min_time"] then
    let m := if metric = "min" then "min_time" else metric
    match pyMinBy (fun p => getattrMetric p.2 m) results with
    | some p => .ok p.1
    | none => .error .emptyInput
  else .error .invalidMetric

/-- Source `get_slowest(results, metric)` from `benchrun/comparison.py`. -/
def get_slowest (results : List (String × BenchmarkResults)) (metric : String) :
    Except ErrKind String :=
  if results = [] then .error .emptyInput
  else if metric ∈ ["mean", "median", "max", "max_time"] then
    let m := if metric = "max" then "max_time" else metric
    match pyMaxBy (fun p => getattrMetric p.2 m) results with
    | some p => .ok p.1
    | none => .error .emptyInput
  else .error .invalidMetric

/-! ### Timer/Sampler: `src/benchrun/core.py` and `benchrun/benchmark.py`

The timing loops are embedded with an explicit trace semantics: the
monotonic clock `time.perf_counter` is a sequence of readings
`clock : ℕ → ℚ` indexed by read order, and the observable side effects
of a call to `benchmark` form a list of events.  Timed run `i` performs
clock read `2*i` immediately before invoking the callable and read
`2*i+1` immediately after, recording their difference. -/

/-- One observable side effect of the timing loops: an untimed warmup
invocation of the callable, a clock read, or the timed invocation `i`. -/
inductive BEvent where
  | warmupCall
  | clockRead (i : ℕ)
  | timedCall (i : ℕ)
deriving DecidableEq

/-- Events of the timed loop `for i in range(runs): start = perf_counter();
func(); end = perf_counter(); durations.append(end - start)`. -/
def timedRunEvents (runs : ℕ) : List BEvent :=
  (List.range runs).flatMap (fun i => [.clockRead (2*i), .timedCall i, .clockRead (2*i+1)])

/-- The durations list produced by the timed loop. -/
def timedDurations (clock : ℕ → ℚ) (runs : ℕ) : List ℚ :=
  (List.range runs).map (fun i => clock (2*i+1) - clock (2*i))

/-- Full event trace of a successful `benchmark` call: `warmup` untimed
invocations (`for _ in range(warmup): func()`) followed by the timed loop. -/
def benchmarkEvents (warmup runs : ℕ) : List BEvent :=
  List.replicate warmup .warmupCall ++ timedRunEvents runs

/-- Source `benchmark(func, runs, warmup)` from `src/benchrun/core.py` (the
validating variant): checks `callable(func)`, `runs >= 1` (as an int) and
`warmup >= 0` (as an int) before performing any invocation, then runs the
warmup and timed loops.  `funcCallable` models `callable(func)`; `runs`
and `warmup` are `ℤ` since the call site passes ints (the `isinstance`
checks hold by typing).  The second component is the event trace, empty
exactly when the callable was never invoked. -/
def coreBenchmark (funcCallable : Bool) (runs warmup : ℤ) (clock : ℕ → ℚ) :
    Except ErrKind (List ℚ) × List BEvent :=
  if ¬funcCallable then (.error .typeMismatch, [])
  else if runs < 1 then (.error .valueRange, [])
  else if warmup < 0 then (.error .valueRange, [])
  else (.ok (timedDurations clock runs.toNat), benchmarkEvents warmup.toNat runs.toNat)

/-- Source `benchmark(func, runs, warmup)` from `benchrun/benchmark.py` (the
logging variant), applied to a callable `func`: it performs no argument
validation; `range(warmup)` and `range(runs)` are empty for nonpositive
arguments (`Int.toNat`), so e.g. `runs = 0` silently returns `[]`. -/
def loggingBenchmark (runs warmup : ℤ) (clock : ℕ → ℚ) :
    Except ErrKind (List ℚ) × List BEvent :=
  (.ok (timedDurations clock runs.toNat), benchmarkEvents warmup.toNat runs.toNat)

/-! ### `benchrun/runner.py` -/

/-- Python's formatted string: the original name, an underscore, and the decimal counter. -/
def addSuffix (original_name : String) (counter : ℕ) : String :=
  original_name ++ "_" ++ Nat.repr counter

/-- The de-duplication loop of `add_implementation`
(`while name in self.implementations` keeps retrying with the original
name, an underscore and an incremented counter), written with explicit fuel; `keys.length + 1` units of fuel
always suffice (see `uniquifyLoop_spec`), so the fuel-exhausted base case
is unreachable at the call site in `uniquify`. -/
def uniquifyLoop (original_name : String) (keys : List String) :
    ℕ → ℕ → String
  | counter, 0 => addSuffix original_name counter
  | counter, fuel + 1 =>
    let name := addSuffix original_name counter
    if name ∈ keys then uniquifyLoop original_name keys (counter + 1) fuel
    else name

/-- Name de-duplication of `add_implementation` (`runner.py` lines 66-70)
as the pure function the spec's §9 calls `uniquify`. -/
def uniquify (name : String) (keys : List String) : String :=
  if name ∈ keys then uniquifyLoop name keys 1 (keys.length + 1) else name

/-- A registered callable's behavior during its benchmarking phase in
`run()`: `.error ()` if some invocation of it raises (the exception
propagates out of `run`), `.ok durations` with the measured timed
durations otherwise. -/
abbrev ImplBehavior : Type := Except Unit (List ℚ)

/-- Source `BenchmarkRunner`'s state: configuration, registered implementations
(a dict, i.e. insertion-ordered association list), accumulated results
(`None` before the first `run()`), and the counter for synthesized
implementation names. -/
structure BenchmarkRunner where
  runs : ℕ
  warmup : ℕ
  implementations : List (String × ImplBehavior)
  results : Option (List (String × BenchmarkResults))
  impl_counter : ℕ

/-- Source `BenchmarkRunner(runs, warmup)`. -/
def BenchmarkRunner.init (runs warmup : ℕ) : BenchmarkRunner :=
  { runs := runs, warmup := warmup, implementations := [], results := none,
    impl_counter := 0 }

/-- Source `add_implementation(func, name)`: resolve the name (given name, else
`func.__name__` when present and not `"<lambda>"` — modelled by
`funcName : Option String` — else `impl_<counter>` after incrementing the
counter), de-duplicate it against the registered keys, and register the
callable under the resulting key. -/
def BenchmarkRunner.add_implementation (st : BenchmarkRunner)
    (func : ImplBehavior) (funcName : Option String) (name : Option String) :
    BenchmarkRunner :=
  let resolved : String × ℕ :=
    match name with
    | some n => (n, st.impl_counter)
    | none =>
      match funcName with
      | some fn => (fn, st.impl_counter)
      | none => ("impl_" ++ Nat.repr (st.impl_counter + 1), st.impl_counter + 1)
  let uname := uniquify resolved.1 (st.implementations.map Prod.fst)
  { st with implementations := st.implementations ++ [(uname, func)],
            impl_counter := resolved.2 }

/-- Outcome of a call to `BenchmarkRunner.run()`. -/
inductive RunOutcome where
  | raisedNoImplementations
  | raisedFromCallable
  | ok (results : List (String × BenchmarkResults))

/-- The main loop of `run()`: process registered implementations in
order, accumulating `self.results[name] = result` for each; an exception
from a callable propagates immediately, leaving the accumulated partial
dict in place. -/
def runLoop (runs warmup : ℕ) :
    List (String × ImplBehavior) → List (String × BenchmarkResults) →
    Except Unit (List (String × BenchmarkResults)) ×
      List (String × BenchmarkResults)
  | [], acc => (.ok acc, acc)
  | (name, beh) :: rest, acc =>
    match beh with
    | .error e => (.error e, acc)
    | .ok durations =>
      runLoop runs warmup rest
        (acc ++ [(name, { name := name, durations := durations,
                          runs := runs, warmup := warmup })])

/-- Source `BenchmarkRunner.run()`: raise if no implementations are registered
(before `self.results` is touched), otherwise reset `self.results` to an
empty dict and run the loop; on success apply `calculate_comparisons` to
the complete set and store and return it; on an exception from a callable
the partial dict accumulated so far stays stored. -/
def BenchmarkRunner.run (st : BenchmarkRunner) : RunOutcome × BenchmarkRunner :=
  if st.implementations.isEmpty then (.raisedNoImplementations, st)
  else
    match runLoop st.runs st.warmup st.implementations [] with
    | (.error _, partialAcc) =>
      (.raisedFromCallable, { st with results := some partialAcc })
    | (.ok acc, _) =>
      let annotated := calculate_comparisons acc
      (.ok annotated, { st with results := some annotated })

/-- Source `get_results()`: returns `self.results` (None if `run()` was never
called). -/
def BenchmarkRunner.get_results (st : BenchmarkRunner) :
    Option (List (String × BenchmarkResults)) :=
  st.results

/-- The result records `run()` accumulates before the first raising
callable (all of them when none raises): used to state what a failed
`run()` leaves behind in `self.results`. -/
def processedRecords (runs warmup : ℕ) :
    List (String × ImplBehavior) → List (String × BenchmarkResults)
  | [] => []
  | (name, .ok durations) :: rest =>
    (name, { name := name, durations := durations, runs := runs,
             warmup := warmup }) :: processedRecords runs warmup rest
  | (_, .error _) :: _ => []

/-- One step of reading a decimal digit string as a number (used to show
`Nat.repr` is injective, which drives the name de-duplication proof). -/
def decStep (acc : ℕ) (c : Char) : ℕ := 10 * acc + (c.toNat - 48)

/-- Decimal value of a digit string. -/
def decVal (l : List Char) : ℕ := l.foldl decStep 0

/-! ### `benchrun/display.py`

Printing to stdout is modelled as returning the list of the arguments of
the `print` calls, in order.  Python's fixed-point float formatting
(fixed-point with 3 decimals) rounds; its exact tie behavior on binary doubles is
abstracted here as round-half-even on the exact value.  No claim depends
on the digits produced. -/

/-- Truthiness of the optional `speedup` / `relative_performance` fields:
`if result.speedup:` is false both for `None` and for `0.0`. -/
def pyTruthy (o : Option ℚ) : Bool :=
  match o with
  | none => false
  | some x => x ≠ 0

/-- Round to the nearest integer, ties to even. -/
def roundHalfEven (q : ℚ) : ℤ :=
  let f := ⌊q⌋
  if q - f < 1/2 then f
  else if 1/2 < q - f then f + 1
  else if f % 2 = 0 then f else f + 1

/-- Left-pad a decimal string with zeros to `w` characters. -/
def zeroPad (s : String) (w : ℕ) : String :=
  String.mk (List.replicate (w - s.length) '0') ++ s

/-- Python's fixed-point decimal formatting of an exact rational value. -/
def formatFixed (q : ℚ) (digits : ℕ) : String :=
  let m : ℕ := 10 ^ digits
  let scaled : ℤ := roundHalfEven (q * (m : ℚ))
  let sign := if scaled < 0 then "-" else ""
  let a : ℕ := scaled.natAbs
  if digits = 0 then sign ++ Nat.repr a
  else sign ++ Nat.repr (a / m) ++ "." ++ zeroPad (Nat.repr (a % m)) digits

/-- Round to the nearest integer, ties to even, on `ℝ`. -/
noncomputable def roundHalfEvenR (x : ℝ) : ℤ :=
  let f := ⌊x⌋
  if x - f < 1/2 then f
  else if 1/2 < x - f then f + 1
  else if f % 2 = 0 then f else f + 1

/-- Python's fixed-point decimal formatting on a real value (used for `std_dev`). -/
noncomputable def formatFixedR (x : ℝ) (digits : ℕ) : String :=
  let m : ℕ := 10 ^ digits
  let scaled : ℤ := roundHalfEvenR (x * (m : ℝ))
  let sign := if scaled < 0 then "-" else ""
  let a : ℕ := scaled.natAbs
  if digits = 0 then sign ++ Nat.repr a
  else sign ++ Nat.repr (a / m) ++ "." ++ zeroPad (Nat.repr (a % m)) digits

/-- Source `BenchmarkResults.format_time(time_value)` from `benchrun/results.py`:
unit scaling s / ms / μs / ns with fixed decimal places. -/
noncomputable def format_time (time_value : ℝ) : String :=
  if 1 ≤ time_value then formatFixedR time_value 6 ++ "s"
  else if 1/1000 ≤ time_value then formatFixedR (time_value * 1000) 3 ++ "ms"
  else if 1/1000000 ≤ time_value then formatFixedR (time_value * 1000000) 3 ++ "μs"
  else formatFixedR (time_value * 1000000000) 3 ++ "ns"

/-- Python's right-aligning format padding: pad with spaces on the left. -/
def padLeft (s : String) (w : ℕ) : String :=
  String.mk (List.replicate (w - s.length) ' ') ++ s

/-- Python's left-aligning format padding: pad with spaces on the right. -/
def padRight (s : String) (w : ℕ) : String :=
  s ++ String.mk (List.replicate (w - s.length) ' ')

/-- Source `sort_by` normalization shared by the display functions:
`"min" -> "min_time"`, `"max" -> "max_time"`. -/
def normalizeSortBy (sort_by : String) : String :=
  if sort_by = "min" then "min_time"
  else if sort_by = "max" then "max_time"
  else sort_by

/-- Source `sorted(results.keys(), key=lambda k: getattr(results[k], sort_by))`,
carried out on the (key, record) pairs; the dict's keys are unique, so
sorting pairs and projecting agrees with sorting keys and looking up. -/
def sortResults (results : List (String × BenchmarkResults))
    (sort_by : String) : List (String × BenchmarkResults) :=
  results.mergeSort (fun a b => getattrMetric a.2 sort_by ≤ getattrMetric b.2 sort_by)

/-- The lines `format_results_table` appends for one entry: a blank line,
the name, the five statistics, and — only when `result.speedup` is truthy
(`if result.speedup:`) — the Speedup line. -/
noncomputable def resultLines (name : String) (r : BenchmarkResults) : List String :=
  ["", name ++ ":",
   "  Mean:   " ++ format_time (r.mean : ℝ),
   "  Median: " ++ format_time (r.median : ℝ),
   "  Std:    " ++ format_time r.std_dev,
   "  Min:    " ++ format_time (r.min_time : ℝ),
   "  Max:    " ++ format_time (r.max_time : ℝ)] ++
  (if pyTruthy r.speedup then ["  Speedup: " ++ formatFixed (r.speedup.getD 0) 2 ++ "x"]
   else [])

/-- Source `format_results_table(results, sort_by)` from `benchrun/display.py`. -/
noncomputable def format_results_table (results : List (String × BenchmarkResults))
    (sort_by : String) : List String :=
  if results = [] then ["No results to display."]
  else
    ["", "Benchmark Results", String.mk (List.replicate 50 '=')] ++
    (sortResults results (normalizeSortBy sort_by)).flatMap
      (fun p => resultLines p.1 p.2)

/-- The speedup cell of a `print_comparison` row before the fastest-row
marker: the speedup formatted to two decimals with an x suffix when the
field is truthy, the string N/A otherwise. -/
def speedupCell (r : BenchmarkResults) : String :=
  if pyTruthy r.speedup then formatFixed (r.speedup.getD 0) 2 ++ "x" else "N/A"

instance : Inhabited BenchmarkResults :=
  ⟨{ name := "", durations := [], runs := 0, warmup := 0 }⟩

/-- One data row printed by `print_comparison`. -/
noncomputable def comparisonRow (name_width : ℕ) (show_all_stats : Bool)
    (name : String) (r : BenchmarkResults) (is_fastest : Bool) : String :=
  let speedup_str := speedupCell r ++ (if is_fastest then " ★" else "")
  if show_all_stats then
    padRight name name_width ++ "  " ++ padLeft (format_time (r.mean : ℝ)) 12 ++ "  " ++
    padLeft (format_time (r.median : ℝ)) 12 ++ "  " ++
    padLeft (format_time r.std_dev) 12 ++ "  " ++
    padLeft (format_time (r.min_time : ℝ)) 12 ++ "  " ++
    padLeft (format_time (r.max_time : ℝ)) 12 ++ "  " ++
    padLeft speedup_str 10
  else
    padRight name name_width ++ "  " ++ padLeft (format_time (r.mean : ℝ)) 12 ++ "  " ++
    padLeft (format_time r.std_dev) 12 ++ "  " ++ padLeft speedup_str 10

/-- Python's `max` over a nonempty list of naturals. -/
def pyNatMax : List ℕ → ℕ
  | [] => 0
  | x :: xs => xs.foldl max x

/-- The header row of the `print_comparison` table. -/
def comparisonHeader (name_width : ℕ) (show_all_stats : Bool) : String :=
  if show_all_stats then
    padRight "Implementation" name_width ++ "  " ++ padLeft "Mean" 12 ++ "  " ++
    padLeft "Median" 12 ++ "  " ++ padLeft "Std Dev" 12 ++ "  " ++
    padLeft "Min" 12 ++ "  " ++ padLeft "Max" 12 ++ "  " ++ padLeft "Speedup" 10
  else
    padRight "Implementation" name_width ++ "  " ++ padLeft "Mean" 12 ++ "  " ++
    padLeft "Std Dev" 12 ++ "  " ++ padLeft "Speedup" 10

/-- Source `print_comparison(results, sort_by, show_all_stats)` from
`benchrun/display.py`, as the list of its `print` arguments. -/
noncomputable def print_comparison (results : List (String × BenchmarkResults))
    (sort_by : String) (show_all_stats : Bool) : List String :=
  if results = [] then ["No results to display."]
  else
    let sorted := sortResults results (normalizeSortBy sort_by)
    let fastest := sorted.headD default
    let max_name_len := pyNatMax (results.map (fun p => p.1.length))
    let name_width := max max_name_len "Implementation".length
    let header := comparisonHeader name_width show_all_stats
    let slowest := (sorted.getLastD default)
    ["\nBenchmark Comparison", String.mk (List.replicate 100 '='), "",
     header, String.mk (List.replicate header.length '─')] ++
    sorted.map (fun p =>
      comparisonRow name_width show_all_stats p.1 p.2 (p.1 = fastest.1)) ++
    ["", "Summary:",
     "  Fastest: " ++ fastest.1 ++ " (" ++ format_time (fastest.2.mean : ℝ) ++ ")",
     "  Slowest: " ++ slowest.1 ++ " (" ++ format_time (slowest.2.mean : ℝ) ++ ")"] ++
    (if 1 < results.length then
       ["  Difference: " ++ formatFixed (slowest.2.mean / fastest.2.mean) 2 ++ "x"]
     else []) ++
    [""]

/-! ### Helper lemmas about the embedded primitives -/

theorem foldl_min_le_init (xs : List ℚ) (a : ℚ) : xs.foldl min a ≤ a := by
  induction xs generalizing a with
  | nil => simp
  | cons y ys ih => exact le_trans (ih (min a y)) (min_le_left a y)

theorem foldl_min_le_mem (xs : List ℚ) (a x : ℚ) (hx : x ∈ xs) : xs.foldl min a ≤ x := by
  induction xs generalizing a with
  | nil => simp at hx
  | cons y ys ih =>
    rcases List.mem_cons.1 hx with rfl | hx
    · exact le_trans (foldl_min_le_init ys (min a x)) (min_le_right a x)
    · exact ih (min a y) hx

theorem foldl_min_mem (xs : List ℚ) (a : ℚ) :
    xs.foldl min a = a ∨ xs.foldl min a ∈ xs := by
  induction xs generalizing a with
  | nil => left; rfl
  | cons y ys ih =>
    rcases ih (min a y) with h | h
    · rcases min_choice a y with h2 | h2
      · left; rw [List.foldl_cons, h, h2]
      · right; rw [List.foldl_cons, h, h2]; exact List.mem_cons_self y ys
    · right; exact List.mem_cons_of_mem y h

theorem init_le_foldl_max (xs : List ℚ) (a : ℚ) : a ≤ xs.foldl max a := by
  induction xs generalizing a with
  | nil => simp
  | cons y ys ih => exact le_trans (le_max_left a y) (ih (max a y))

theorem mem_le_foldl_max (xs : List ℚ) (a x : ℚ) (hx : x ∈ xs) : x ≤ xs.foldl max a := by
  induction xs generalizing a with
  | nil => simp at hx
  | cons y ys ih =>
    rcases List.mem_cons.1 hx with rfl | hx
    · exact le_trans (le_max_right a x) (init_le_foldl_max ys (max a x))
    · exact ih (max a y) hx

theorem foldl_max_mem (xs : List ℚ) (a : ℚ) :
    xs.foldl max a = a ∨ xs.foldl max a ∈ xs := by
  induction xs generalizing a with
  | nil => left; rfl
  | cons y ys ih =>
    rcases ih (max a y) with h | h
    · rcases max_choice a y with h2 | h2
      · left; rw [List.foldl_cons, h, h2]
      · right; rw [List.foldl_cons, h, h2]; exact List.mem_cons_self y ys
    · right; exact List.mem_cons_of_mem y h

theorem pyListMin_le (l : List ℚ) (x : ℚ) (hx : x ∈ l) : pyListMin l ≤ x := by
  cases l with
  | nil => simp at hx
  | cons a t =>
    rcases List.mem_cons.1 hx with rfl | hx
    · exact foldl_min_le_init t x
    · exact foldl_min_le_mem t a x hx

theorem pyListMin_mem (l : List ℚ) (h : l ≠ []) : pyListMin l ∈ l := by
  cases l with
  | nil => exact absurd rfl h
  | cons a t =>
    rcases foldl_min_mem t a with h2 | h2
    · rw [pyListMin, h2]; exact List.mem_cons_self a t
    · exact List.mem_cons_of_mem a h2

theorem le_pyListMax (l : List ℚ) (x : ℚ) (hx : x ∈ l) : x ≤ pyListMax l := by
  cases l with
  | nil => simp at hx
  | cons a t =>
    rcases List.mem_cons.1 hx with rfl | hx
    · exact init_le_foldl_max t x
    · exact mem_le_foldl_max t a x hx

theorem pyListMax_mem (l : List ℚ) (h : l ≠ []) : pyListMax l ∈ l := by
  cases l with
  | nil => exact absurd rfl h
  | cons a t =>
    rcases foldl_max_mem t a with h2 | h2
    · rw [pyListMax, h2]; exact List.mem_cons_self a t
    · exact List.mem_cons_of_mem a h2

theorem pySorted_perm (l : List ℚ) : (statistics.pySorted l).Perm l :=
  List.mergeSort_perm l _

theorem pySorted_sorted (l : List ℚ) : (statistics.pySorted l).Sorted (· ≤ ·) :=
  List.sorted_mergeSort' l

theorem pySorted_length (l : List ℚ) : (statistics.pySorted l).length = l.length :=
  (pySorted_perm l).length_eq

theorem mem_pySorted (l : List ℚ) (x : ℚ) : x ∈ statistics.pySorted l ↔ x ∈ l :=
  (pySorted_perm l).mem_iff

theorem getLastD_cons_cons (a b d e : ℚ) (u : List ℚ) :
    (a :: b :: u).getLastD d = (b :: u).getLastD e := by
  simp only [List.getLastD_eq_getLast?, List.getLast?_cons_cons]
  cases h : (b :: u).getLast? with
  | none => simp [List.getLast?_eq_none_iff] at h
  | some y => simp

theorem sorted_le_getLastD (s : List ℚ) (hs : s.Sorted (· ≤ ·)) :
    ∀ x ∈ s, x ≤ s.getLastD 0 := by
  induction s with
  | nil => simp
  | cons a t ih =>
    intro x hx
    have hcons := List.sorted_cons.mp hs
    rcases List.mem_cons.mp hx with rfl | hxt
    · cases t with
      | nil => simp
      | cons b u =>
        have h1 : x ≤ b := hcons.1 b (List.mem_cons_self b u)
        have h2 : b ≤ (b :: u).getLastD 0 :=
          ih hcons.2 b (List.mem_cons_self b u)
        rw [getLastD_cons_cons x b 0 0 u]
        exact le_trans h1 h2
    · cases t with
      | nil => simp at hxt
      | cons b u =>
        rw [getLastD_cons_cons a b 0 0 u]
        exact ih hcons.2 x hxt

theorem getLastD_mem (s : List ℚ) (h : s ≠ []) : s.getLastD 0 ∈ s := by
  induction s with
  | nil => exact absurd rfl h
  | cons a t ih =>
    cases t with
    | nil => simp
    | cons b u =>
      rw [getLastD_cons_cons a b 0 0 u]
      exact List.mem_cons_of_mem a (ih (by simp))

theorem sorted_head_le (s : List ℚ) (hs : s.Sorted (· ≤ ·)) :
    ∀ x ∈ s, s.getD 0 0 ≤ x := by
  cases s with
  | nil => simp
  | cons a t =>
    intro x hx
    rcases List.mem_cons.mp hx with rfl | hxt
    · simp
    · simpa using (List.sorted_cons.mp hs).1 x hxt

theorem getD_mem (l : List ℚ) (i : ℕ) (h : i < l.length) : l.getD i 0 ∈ l := by
  rw [List.getD_eq_getElem l 0 h]
  exact List.getElem_mem h

theorem list_sum_le_length_mul_max (l : List ℚ) :
    l.sum ≤ (l.length : ℚ) * pyListMax l := by
  have := List.sum_le_card_nsmul l (pyListMax l) (fun x hx => le_pyListMax l x hx)
  simpa [nsmul_eq_mul] using this

theorem length_mul_min_le_list_sum (l : List ℚ) :
    (l.length : ℚ) * pyListMin l ≤ l.sum := by
  have := List.card_nsmul_le_sum l (pyListMin l) (fun x hx => pyListMin_le l x hx)
  simpa [nsmul_eq_mul] using this

theorem median_odd (l : List ℚ) (h : l.length % 2 = 1) :
    statistics.median l = (statistics.pySorted l).getD (l.length / 2) 0 := by
  simp [statistics.median, h]

theorem median_even (l : List ℚ) (h : ¬ l.length % 2 = 1) :
    statistics.median l =
      ((statistics.pySorted l).getD (l.length / 2 - 1) 0 +
        (statistics.pySorted l).getD (l.length / 2) 0) / 2 := by
  simp [statistics.median, h]

theorem median_bounds (l : List ℚ) (hne : l ≠ []) :
    pyListMin l ≤ statistics.median l ∧ statistics.median l ≤ pyListMax l := by
  have hlen : 0 < l.length := List.length_pos.mpr hne
  by_cases hodd : l.length % 2 = 1
  · rw [median_odd l hodd]
    have hidx : l.length / 2 < (statistics.pySorted l).length := by
      rw [pySorted_length]; exact Nat.div_lt_self hlen (by norm_num)
    have hmem : (statistics.pySorted l).getD (l.length / 2) 0 ∈ l :=
      (mem_pySorted l _).mp (getD_mem _ _ hidx)
    exact ⟨pyListMin_le l _ hmem, le_pyListMax l _ hmem⟩
  · rw [median_even l hodd]
    have hidx1 : l.length / 2 - 1 < (statistics.pySorted l).length := by
      rw [pySorted_length]; omega
    have hidx2 : l.length / 2 < (statistics.pySorted l).length := by
      rw [pySorted_length]; exact Nat.div_lt_self hlen (by norm_num)
    have hm1 : (statistics.pySorted l).getD (l.length / 2 - 1) 0 ∈ l :=
      (mem_pySorted l _).mp (getD_mem _ _ hidx1)
    have hm2 : (statistics.pySorted l).getD (l.length / 2) 0 ∈ l :=
      (mem_pySorted l _).mp (getD_mem _ _ hidx2)
    constructor
    · linarith [pyListMin_le l _ hm1, pyListMin_le l _ hm2]
    · linarith [le_pyListMax l _ hm1, le_pyListMax l _ hm2]

theorem mean_bounds (l : List ℚ) (hne : l ≠ []) :
    pyListMin l ≤ statistics.mean l ∧ statistics.mean l ≤ pyListMax l := by
  have hlen : 0 < l.length := List.length_pos.mpr hne
  have hn : (0:ℚ) < (l.length : ℚ) := by exact_mod_cast hlen
  constructor
  · rw [statistics.mean, le_div_iff₀ hn]
    have := length_mul_min_le_list_sum l
    linarith
  · rw [statistics.mean, div_le_iff₀ hn]
    have := list_sum_le_length_mul_max l
    linarith

theorem pyInt_of_nonneg (q : ℚ) (h : 0 ≤ q) : pyInt q = ⌊q⌋ := if_pos h

theorem percentile_eq_spec (s : List ℚ) (p : ℚ) (hs : s ≠ []) (h0 : 0 ≤ p) :
    percentile s p = percentileSpec s p := by
  have hlen : 0 < s.length := List.length_pos.mpr hs
  have h1 : (1:ℚ) ≤ (s.length : ℚ) := by exact_mod_cast hlen
  have hk : 0 ≤ ((s.length : ℚ) - 1) * (p / 100) := by
    apply mul_nonneg (by linarith) (by positivity)
  simp only [percentile, percentileSpec, if_neg hs, pyInt_of_nonneg _ hk]
  by_cases hc :
      (s.length : ℤ) ≤ ⌊((s.length : ℚ) - 1) * (p / 100)⌋ + 1
  · rw [if_pos hc, if_pos (by omega : (s.length : ℤ) - 1 <
      ⌊((s.length : ℚ) - 1) * (p / 100)⌋ + 1)]
  · rw [if_neg hc, if_neg (by omega : ¬ ((s.length : ℤ) - 1 <
      ⌊((s.length : ℚ) - 1) * (p / 100)⌋ + 1))]

theorem percentile_hundred (s : List ℚ) (hs : s ≠ []) :
    percentile s 100 = s.getLastD 0 := by
  have hlen : 0 < s.length := List.length_pos.mpr hs
  have e1 : ((s.length : ℚ) - 1) * ((100:ℚ) / 100) = (((s.length : ℤ) - 1 : ℤ) : ℚ) := by
    push_cast; ring
  have e2 : pyInt (((s.length : ℚ) - 1) * ((100:ℚ) / 100)) = (s.length : ℤ) - 1 := by
    rw [e1, pyInt_of_nonneg]
    · exact Int.floor_intCast _
    · rw [← e1]
      have h1 : (1:ℚ) ≤ (s.length : ℚ) := by exact_mod_cast hlen
      apply mul_nonneg (by linarith) (by norm_num)
  simp only [percentile, if_neg hs, e2]
  rw [if_pos (by omega : (s.length : ℤ) ≤ (s.length : ℤ) - 1 + 1)]

theorem percentile_zero (s : List ℚ) (hs : s ≠ []) :
    percentile s 0 = s.getD 0 0 := by
  have hlen : 0 < s.length := List.length_pos.mpr hs
  have e1 : ((s.length : ℚ) - 1) * ((0:ℚ) / 100) = 0 := by ring
  have e2 : pyInt (((s.length : ℚ) - 1) * ((0:ℚ) / 100)) = 0 := by
    rw [e1, pyInt_of_nonneg _ le_rfl, Int.floor_zero]
  simp only [percentile, if_neg hs, e2]
  by_cases hc : (s.length : ℤ) ≤ 0 + 1
  · rw [if_pos hc]
    have hone : s.length = 1 := by omega
    obtain ⟨a, rfl⟩ := List.length_eq_one.mp hone
    rfl
  · rw [if_neg hc, e1]
    simp

theorem sorted_getLastD_eq_max (l : List ℚ) (hne : l ≠ []) :
    (statistics.pySorted l).getLastD 0 = pyListMax l := by
  have hs : statistics.pySorted l ≠ [] := by
    intro h
    apply hne
    have hp := (pySorted_perm l).symm
    rw [h] at hp
    exact hp.eq_nil
  apply le_antisymm
  · exact le_pyListMax l _ ((mem_pySorted l _).mp (getLastD_mem _ hs))
  · exact sorted_le_getLastD _ (pySorted_sorted l) _
      ((mem_pySorted l _).mpr (pyListMax_mem l hne))

theorem sorted_head_eq_min (l : List ℚ) (hne : l ≠ []) :
    (statistics.pySorted l).getD 0 0 = pyListMin l := by
  have hs : statistics.pySorted l ≠ [] := by
    intro h
    apply hne
    have hp := (pySorted_perm l).symm
    rw [h] at hp
    exact hp.eq_nil
  have hlen : 0 < (statistics.pySorted l).length := List.length_pos.mpr hs
  apply le_antisymm
  · exact sorted_head_le _ (pySorted_sorted l) _
      ((mem_pySorted l _).mpr (pyListMin_mem l hne))
  · exact pyListMin_le l _ ((mem_pySorted l _).mp (getD_mem _ _ hlen))

theorem pySorted_ne_nil (l : List ℚ) (hne : l ≠ []) : statistics.pySorted l ≠ [] := by
  intro h
  apply hne
  have hp := (pySorted_perm l).symm
  rw [h] at hp
  exact hp.eq_nil

/-- Claim C7: for every non-empty sample set, the summarized record
satisfies `min_time ≤ median ≤ max_time` and `min_time ≤ mean ≤ max_time`. -/
theorem claimC7 (r : BenchmarkResults) (h : r.durations ≠ []) :
    r.min_time ≤ r.median ∧ r.median ≤ r.max_time ∧
    r.min_time ≤ r.mean ∧ r.mean ≤ r.max_time :=
  ⟨(median_bounds r.durations h).1, (median_bounds r.durations h).2,
   (mean_bounds r.durations h).1, (mean_bounds r.durations h).2⟩

theorem claimC7_witness :
    ({ name := "w", durations := [3, 1, 2], runs := 3, warmup := 0 } :
        BenchmarkResults).min_time ≤
      ({ name := "w", durations := [3, 1, 2], runs := 3, warmup := 0 } :
        BenchmarkResults).median ∧
    ({ name := "w", durations := [3, 1, 2], runs := 3, warmup := 0 } :
        BenchmarkResults).median ≤
      ({ name := "w", durations := [3, 1, 2], runs := 3, warmup := 0 } :
        BenchmarkResults).max_time ∧
    ({ name := "w", durations := [3, 1, 2], runs := 3, warmup := 0 } :
        BenchmarkResults).min_time ≤
      ({ name := "w", durations := [3, 1, 2], runs := 3, warmup := 0 } :
        BenchmarkResults).mean ∧
    ({ name := "w", durations := [3, 1, 2], runs := 3, warmup := 0 } :
        BenchmarkResults).mean ≤
      ({ name := "w", durations := [3, 1, 2], runs := 3, warmup := 0 } :
        BenchmarkResults).max_time :=
  claimC7 { name := "w", durations := [3, 1, 2], runs := 3, warmup := 0 } (by simp)

/-- Claim C2: for every non-empty sample set and percentile `p` in
`[0, 100]`, the percentile computed by the code on the ascending-sorted
copy agrees with the spec's linear-interpolation formula (rank
`k = (N-1)*p/100`, `f = floor k`, `c = f+1`, last element when `c`
exceeds the last index, interpolation otherwise); consequently
`Percentile(100)` is the maximum and `Percentile(0)` the minimum of the
sample set. -/
theorem claimC2 (l : List ℚ) (p : ℚ) (hne : l ≠ []) (h0 : 0 ≤ p) (_h100 : p ≤ 100) :
    percentile (statistics.pySorted l) p = percentileSpec (statistics.pySorted l) p ∧
    percentile (statistics.pySorted l) 100 = pyListMax l ∧
    percentile (statistics.pySorted l) 0 = pyListMin l := by
  have hs := pySorted_ne_nil l hne
  refine ⟨percentile_eq_spec _ p hs h0, ?_, ?_⟩
  · rw [percentile_hundred _ hs, sorted_getLastD_eq_max l hne]
  · rw [percentile_zero _ hs, sorted_head_eq_min l hne]

theorem claimC2_witness :
    percentile (statistics.pySorted [2, 1]) 100 = pyListMax [2, 1] ∧
    percentile (statistics.pySorted [2, 1]) 0 = pyListMin [2, 1] :=
  ⟨(claimC2 [2, 1] 95 (by simp) (by norm_num) (by norm_num)).2.1,
   (claimC2 [2, 1] 95 (by simp) (by norm_num) (by norm_num)).2.2⟩

theorem list_sum_eq_zero_of_nonneg (l : List ℚ) (h : ∀ x ∈ l, 0 ≤ x)
    (hsum : l.sum = 0) : ∀ x ∈ l, x = 0 := by
  induction l with
  | nil => simp
  | cons a t ih =>
    have ha : 0 ≤ a := h a (List.mem_cons_self a t)
    have hts : 0 ≤ t.sum :=
      List.sum_nonneg (fun x hx => h x (List.mem_cons_of_mem a hx))
    rw [List.sum_cons] at hsum
    have ha0 : a = 0 := by linarith
    have ht0 : t.sum = 0 := by linarith
    intro x hx
    rcases List.mem_cons.1 hx with rfl | hx
    · exact ha0
    · exact ih (fun y hy => h y (List.mem_cons_of_mem a hy)) ht0 x hx

theorem const_sum (l : List ℚ) (c : ℚ) (h : ∀ x ∈ l, x = c) :
    l.sum = l.length * c := by
  induction l with
  | nil => simp
  | cons a t ih =>
    rw [List.sum_cons, ih (fun x hx => h x (List.mem_cons_of_mem a hx)),
      h a (List.mem_cons_self a t), List.length_cons]
    push_cast
    ring

theorem sampleVariance_nonneg (l : List ℚ) (h2 : 2 ≤ l.length) :
    0 ≤ statistics.sampleVariance l := by
  apply div_nonneg
  · apply List.sum_nonneg
    intro z hz
    obtain ⟨w, _, rfl⟩ := List.mem_map.1 hz
    positivity
  · have : (2:ℚ) ≤ (l.length : ℚ) := by exact_mod_cast h2
    linarith

theorem sampleVariance_eq_zero_iff (l : List ℚ) (h2 : 2 ≤ l.length) :
    statistics.sampleVariance l = 0 ↔ ∀ x ∈ l, ∀ y ∈ l, x = y := by
  have hlen : (2:ℚ) ≤ (l.length : ℚ) := by exact_mod_cast h2
  have hd : ((l.length : ℚ) - 1) ≠ 0 := by intro h0; linarith
  rw [statistics.sampleVariance, div_eq_zero_iff]
  constructor
  · rintro (hnum | habs)
    · have hzero : ∀ z ∈ l.map (fun x => (x - statistics.mean l) ^ 2), z = 0 := by
        apply list_sum_eq_zero_of_nonneg _ _ hnum
        intro z hz
        obtain ⟨w, _, rfl⟩ := List.mem_map.1 hz
        positivity
      have hmean : ∀ w ∈ l, w = statistics.mean l := by
        intro w hw
        have h0 := hzero _ (List.mem_map_of_mem _ hw)
        have := sq_eq_zero_iff.mp h0
        linarith [this]
      intro x hx y hy
      rw [hmean x hx, hmean y hy]
    · exact absurd habs hd
  · intro hall
    left
    have hlenQ : (l.length : ℚ) ≠ 0 := by linarith
    have hmean : ∀ w ∈ l, w = statistics.mean l := by
      intro w hw
      have hsum : l.sum = l.length * w := const_sum l w (fun y hy => hall y hy w hw)
      rw [statistics.mean, hsum, mul_comm, mul_div_assoc, div_self hlenQ, mul_one]
    apply List.sum_eq_zero
    intro z hz
    obtain ⟨w, hw, rfl⟩ := List.mem_map.1 hz
    rw [← hmean w hw]
    simp

theorem castListSum (l : List ℚ) :
    ((l.sum : ℚ) : ℝ) = (l.map (fun x : ℚ => (x : ℝ))).sum := by
  induction l with
  | nil => simp
  | cons a t ih =>
    rw [List.sum_cons, List.map_cons, List.sum_cons, Rat.cast_add, ih]

theorem mean_cast (l : List ℚ) :
    ((statistics.mean l : ℚ) : ℝ) =
      (l.map (fun y : ℚ => (y : ℝ))).sum / (l.length : ℝ) := by
  rw [statistics.mean, Rat.cast_div, castListSum, Rat.cast_natCast]

theorem sampleVariance_cast (l : List ℚ) :
    ((statistics.sampleVariance l : ℚ) : ℝ) =
      (l.map (fun x : ℚ => ((x : ℝ) -
          (l.map (fun y : ℚ => (y : ℝ))).sum / (l.length : ℝ)) ^ 2)).sum /
        ((l.length : ℝ) - 1) := by
  rw [statistics.sampleVariance, Rat.cast_div]
  congr 1
  · rw [castListSum, List.map_map]
    congr 1
    apply List.map_congr_left
    intro x _
    simp only [Function.comp_apply]
    push_cast
    rw [mean_cast]
  · push_cast
    rfl

/-- Claim C6: for every non-empty sample set, `std_dev` is the
Bessel-corrected sample standard deviation (divisor `N-1`) when `N > 1`
and exactly `0` when `N = 1`; moreover `std_dev = 0` holds exactly when
the sample set has fewer than 2 elements or all elements are equal. -/
theorem claimC6 (r : BenchmarkResults) (h : r.durations ≠ []) :
    (1 < r.durations.length →
      r.std_dev = Real.sqrt
        ((r.durations.map (fun x : ℚ => ((x : ℝ) -
            (r.durations.map (fun y : ℚ => (y : ℝ))).sum /
              (r.durations.length : ℝ)) ^ 2)).sum /
          ((r.durations.length : ℝ) - 1))) ∧
    (r.durations.length = 1 → r.std_dev = 0) ∧
    (r.std_dev = 0 ↔
      r.durations.length < 2 ∨ ∀ x ∈ r.durations, ∀ y ∈ r.durations, x = y) := by
  refine ⟨?_, ?_, ?_⟩
  · intro h1
    rw [BenchmarkResults.std_dev, if_pos h1, statistics.stdev, sampleVariance_cast]
  · intro h1
    rw [BenchmarkResults.std_dev, if_neg (by omega)]
  · by_cases h1 : 1 < r.durations.length
    · rw [BenchmarkResults.std_dev, if_pos h1, statistics.stdev, Real.sqrt_eq_zero']
      have hv : 0 ≤ statistics.sampleVariance r.durations :=
        sampleVariance_nonneg _ (by omega)
      constructor
      · intro hle
        right
        have hq : statistics.sampleVariance r.durations ≤ 0 := by exact_mod_cast hle
        exact (sampleVariance_eq_zero_iff _ (by omega)).mp (le_antisymm hq hv)
      · rintro (hlt | hall)
        · omega
        · have h0 : statistics.sampleVariance r.durations = 0 :=
            (sampleVariance_eq_zero_iff _ (by omega)).mpr hall
          rw [h0]
          simp
    · have hpos : 0 < r.durations.length := List.length_pos.mpr h
      rw [BenchmarkResults.std_dev, if_neg h1]
      exact ⟨fun _ => Or.inl (by omega), fun _ => rfl⟩

theorem claimC6_witness :
    ({ name := "w", durations := [1, 1], runs := 2, warmup := 0 } :
      BenchmarkResults).std_dev = 0 :=
  (claimC6 { name := "w", durations := [1, 1], runs := 2, warmup := 0 }
      (by simp)).2.2.mpr
    (Or.inr (by intro x hx y hy; simp at hx hy; rw [hx, hy]))

theorem pyMinBy_foldl {α : Type} (f : α → ℚ) (xs : List α) (acc : α) :
    (xs.foldl (fun acc y => if f y < f acc then y else acc) acc = acc ∨
      xs.foldl (fun acc y => if f y < f acc then y else acc) acc ∈ xs) ∧
    f (xs.foldl (fun acc y => if f y < f acc then y else acc) acc) ≤ f acc ∧
    ∀ y ∈ xs, f (xs.foldl (fun acc y => if f y < f acc then y else acc) acc) ≤ f y := by
  induction xs generalizing acc with
  | nil => exact ⟨Or.inl rfl, le_refl _, by simp⟩
  | cons z zs ih =>
    simp only [List.foldl_cons]
    obtain ⟨ihmem, ihle, ihall⟩ := ih (if f z < f acc then z else acc)
    have hle' : f (if f z < f acc then z else acc) ≤ f acc := by
      split
      · exact le_of_lt (by assumption)
      · exact le_refl _
    have hlez : f (if f z < f acc then z else acc) ≤ f z := by
      split
      · exact le_refl _
      · exact le_of_not_lt (by assumption)
    refine ⟨?_, le_trans ihle hle', ?_⟩
    · rcases ihmem with h | h
      · rw [h]
        split
        · right; exact List.mem_cons_self _ _
        · left; rfl
      · right; exact List.mem_cons_of_mem _ h
    · intro y hy
      rcases List.mem_cons.1 hy with rfl | hy
      · exact le_trans ihle hlez
      · exact ihall y hy

theorem pyMinBy_spec {α : Type} (f : α → ℚ) (l : List α) (hne : l ≠ []) :
    ∃ q, pyMinBy f l = some q ∧ q ∈ l ∧ ∀ x ∈ l, f q ≤ f x := by
  cases l with
  | nil => exact absurd rfl hne
  | cons x xs =>
    obtain ⟨hmem, hle, hall⟩ := pyMinBy_foldl f xs x
    refine ⟨xs.foldl (fun acc y => if f y < f acc then y else acc) x, rfl, ?_, ?_⟩
    · rcases hmem with h | h
      · rw [h]; exact List.mem_cons_self x xs
      · exact List.mem_cons_of_mem x h
    · intro y hy
      rcases List.mem_cons.1 hy with rfl | hy
      · exact hle
      · exact hall y hy

theorem pyMaxBy_foldl {α : Type} (f : α → ℚ) (xs : List α) (acc : α) :
    (xs.foldl (fun acc y => if f acc < f y then y else acc) acc = acc ∨
      xs.foldl (fun acc y => if f acc < f y then y else acc) acc ∈ xs) ∧
    f acc ≤ f (xs.foldl (fun acc y => if f acc < f y then y else acc) acc) ∧
    ∀ y ∈ xs, f y ≤ f (xs.foldl (fun acc y => if f acc < f y then y else acc) acc) := by
  induction xs generalizing acc with
  | nil => exact ⟨Or.inl rfl, le_refl _, by simp⟩
  | cons z zs ih =>
    simp only [List.foldl_cons]
    obtain ⟨ihmem, ihle, ihall⟩ := ih (if f acc < f z then z else acc)
    have hle' : f acc ≤ f (if f acc < f z then z else acc) := by
      split
      · exact le_of_lt (by assumption)
      · exact le_refl _
    have hlez : f z ≤ f (if f acc < f z then z else acc) := by
      split
      · exact le_refl _
      · exact le_of_not_lt (by assumption)
    refine ⟨?_, le_trans hle' ihle, ?_⟩
    · rcases ihmem with h | h
      · rw [h]
        split
        · right; exact List.mem_cons_self _ _
        · left; rfl
      · right; exact List.mem_cons_of_mem _ h
    · intro y hy
      rcases List.mem_cons.1 hy with rfl | hy
      · exact le_trans hlez ihle
      · exact ihall y hy

theorem pyMaxBy_spec {α : Type} (f : α → ℚ) (l : List α) (hne : l ≠ []) :
    ∃ q, pyMaxBy f l = some q ∧ q ∈ l ∧ ∀ x ∈ l, f x ≤ f q := by
  cases l with
  | nil => exact absurd rfl hne
  | cons x xs =>
    obtain ⟨hmem, hle, hall⟩ := pyMaxBy_foldl f xs x
    refine ⟨xs.foldl (fun acc y => if f acc < f y then y else acc) x, rfl, ?_, ?_⟩
    · rcases hmem with h | h
      · rw [h]; exact List.mem_cons_self x xs
      · exact List.mem_cons_of_mem x h
    · intro y hy
      rcases List.mem_cons.1 hy with rfl | hy
      · exact hle
      · exact hall y hy

/-- Claim C1: for every non-empty annotated Comparison Set (with the
sample-set invariant, nonnegative means), the entry whose mean is the
minimum gets `speedup = 1.0` and `relative_performance = 100.0`; every
other entry gets `speedup = fastest_mean / entry_mean ≤ 1`; and an entry
with mean `0` gets `speedup = 1.0` and `relative_performance = 100.0`
defensively instead of a divide-by-zero error. -/
theorem claimC1 (results : List (String × BenchmarkResults)) (hne : results ≠ [])
    (hnn : ∀ p ∈ results, (0:ℚ) ≤ p.2.mean) :
    ∃ fmin : ℚ, (∃ q ∈ results, q.2.mean = fmin) ∧
      (∀ p ∈ results, fmin ≤ p.2.mean) ∧
      ∀ p ∈ calculate_comparisons results,
        (p.2.mean = fmin →
          p.2.speedup = some 1 ∧ p.2.relative_performance = some 100) ∧
        (p.2.mean ≠ fmin →
          p.2.speedup = some (fmin / p.2.mean) ∧ fmin / p.2.mean ≤ 1 ∧
          p.2.relative_performance = some (fmin / p.2.mean * 100)) ∧
        (p.2.mean = 0 →
          p.2.speedup = some 1 ∧ p.2.relative_performance = some 100) := by
  obtain ⟨q, hq, hqmem, hqmin⟩ := pyMinBy_spec (fun p => p.2.mean) results hne
  refine ⟨q.2.mean, ⟨q, hqmem, rfl⟩, hqmin, ?_⟩
  intro p hp
  have hft : ((pyMinBy (fun p => p.2.mean) results).map (fun p => p.2.mean)).getD 0 =
      q.2.mean := by rw [hq]; rfl
  simp only [calculate_comparisons, if_neg hne, hft] at hp
  obtain ⟨p0, hp0, rfl⟩ := List.mem_map.1 hp
  have h0f : (0:ℚ) ≤ q.2.mean := hnn q hqmem
  have hminp : q.2.mean ≤ p0.2.mean := hqmin p0 hp0
  by_cases hpos : 0 < p0.2.mean
  · rw [if_pos hpos]
    refine ⟨?_, ?_, ?_⟩
    · intro heq
      have heq' : p0.2.mean = q.2.mean := heq
      have hq0 : q.2.mean ≠ 0 := by
        rw [← heq']; exact ne_of_gt hpos
      constructor
      · show some (q.2.mean / p0.2.mean) = some 1
        rw [heq', div_self hq0]
      · show some (q.2.mean / p0.2.mean * 100) = some 100
        rw [heq', div_self hq0, one_mul]
    · intro _
      exact ⟨rfl, (div_le_one hpos).mpr hminp, rfl⟩
    · intro h0
      exact absurd (h0 : p0.2.mean = 0) (ne_of_gt hpos)
  · rw [if_neg hpos]
    have hz : p0.2.mean = 0 :=
      le_antisymm (le_of_not_lt hpos) (hnn p0 hp0)
    refine ⟨fun _ => ⟨rfl, rfl⟩, ?_, fun _ => ⟨rfl, rfl⟩⟩
    intro hneq
    exfalso
    apply hneq
    show p0.2.mean = q.2.mean
    rw [hz]
    exact (le_antisymm (hz ▸ hminp) h0f).symm

theorem claimC1_witness :
    ∃ fmin : ℚ,
      (∃ q ∈ [("a", ({ name := "a", durations := [1], runs := 1, warmup := 0 } :
          BenchmarkResults)),
        ("b", ({ name := "b", durations := [2], runs := 1, warmup := 0 } :
          BenchmarkResults))], q.2.mean = fmin) ∧
      (∀ p ∈ [("a", ({ name := "a", durations := [1], runs := 1, warmup := 0 } :
          BenchmarkResults)),
        ("b", ({ name := "b", durations := [2], runs := 1, warmup := 0 } :
          BenchmarkResults))], fmin ≤ p.2.mean) ∧
      ∀ p ∈ calculate_comparisons
          [("a", ({ name := "a", durations := [1], runs := 1, warmup := 0 } :
            BenchmarkResults)),
           ("b", ({ name := "b", durations := [2], runs := 1, warmup := 0 } :
            BenchmarkResults))],
        (p.2.mean = fmin →
          p.2.speedup = some 1 ∧ p.2.relative_performance = some 100) ∧
        (p.2.mean ≠ fmin →
          p.2.speedup = some (fmin / p.2.mean) ∧ fmin / p.2.mean ≤ 1 ∧
          p.2.relative_performance = some (fmin / p.2.mean * 100)) ∧
        (p.2.mean = 0 →
          p.2.speedup = some 1 ∧ p.2.relative_performance = some 100) :=
  claimC1 _ (by simp)
    (by
      intro p hp
      simp only [List.mem_cons, List.not_mem_nil, or_false] at hp
      rcases hp with rfl | rfl <;>
        norm_num [BenchmarkResults.mean, statistics.mean])

/-- Claim C3, counterexample: the claim's shared recognized-metric list
(`mean`, `median`, `min`/`min_time`, `max`/`max_time` for both
operations, with no fastest-vs-slowest enforcement) is false on the code:
`get_fastest` on a non-empty set rejects the recognized name `"max"`
with InvalidMetric instead of comparing by it. -/
theorem claimC3_counterexample :
    get_fastest [("a", { name := "a", durations := [1], runs := 1, warmup := 0 })]
      "max" = .error .invalidMetric ∧
    get_slowest [("a", { name := "a", durations := [1], runs := 1, warmup := 0 })]
      "min" = .error .invalidMetric := by
  constructor <;> rfl

/-- Claim C3 (amended): `get_fastest` and `get_slowest` fail with
EmptyInput on an empty set; each has its own recognized metric set —
`mean`/`median`/`min`/`min_time` for fastest, `mean`/`median`/`max`/
`max_time` for slowest — failing with InvalidMetric outside it; on a
non-empty set with a metric it recognizes, each simply compares by that
metric (first minimal, resp. first maximal, entry). -/
theorem claimC3_amended (results : List (String × BenchmarkResults)) (metric : String) :
    (results = [] → get_fastest results metric = .error .emptyInput ∧
      get_slowest results metric = .error .emptyInput) ∧
    (results ≠ [] → metric ∉ (["mean", "median", "min", "min_time"] : List String) →
      get_fastest results metric = .error .invalidMetric) ∧
    (results ≠ [] → metric ∉ (["mean", "median", "max", "max_time"] : List String) →
      get_slowest results metric = .error .invalidMetric) ∧
    (results ≠ [] → metric ∈ (["mean", "median", "min", "min_time"] : List String) →
      ∃ p ∈ results, get_fastest results metric = .ok p.1 ∧
        ∀ x ∈ results,
          getattrMetric p.2 (if metric = "min" then "min_time" else metric) ≤
            getattrMetric x.2 (if metric = "min" then "min_time" else metric)) ∧
    (results ≠ [] → metric ∈ (["mean", "median", "max", "max_time"] : List String) →
      ∃ p ∈ results, get_slowest results metric = .ok p.1 ∧
        ∀ x ∈ results,
          getattrMetric x.2 (if metric = "max" then "max_time" else metric) ≤
            getattrMetric p.2 (if metric = "max" then "max_time" else metric)) := by
  refine ⟨?_, ?_, ?_, ?_, ?_⟩
  · rintro rfl
    exact ⟨rfl, rfl⟩
  · intro hne hnm
    rw [get_fastest, if_neg hne, if_neg hnm]
  · intro hne hnm
    rw [get_slowest, if_neg hne, if_neg hnm]
  · intro hne hm
    obtain ⟨q, hq, hqmem, hqmin⟩ :=
      pyMinBy_spec (fun p =>
        getattrMetric p.2 (if metric = "min" then "min_time" else metric)) results hne
    refine ⟨q, hqmem, ?_, hqmin⟩
    simp only [get_fastest, if_neg hne, if_pos hm]
    rw [hq]
  · intro hne hm
    obtain ⟨q, hq, hqmem, hqmax⟩ :=
      pyMaxBy_spec (fun p =>
        getattrMetric p.2 (if metric = "max" then "max_time" else metric)) results hne
    refine ⟨q, hqmem, ?_, hqmax⟩
    simp only [get_slowest, if_neg hne, if_pos hm]
    rw [hq]

theorem claimC3_witness :
    ∃ p ∈ [("a", ({ name := "a", durations := [1], runs := 1, warmup := 0 } :
        BenchmarkResults))],
      get_fastest [("a", ({ name := "a", durations := [1], runs := 1, warmup := 0 } :
          BenchmarkResults))] "mean" = .ok p.1 ∧
      ∀ x ∈ [("a", ({ name := "a", durations := [1], runs := 1, warmup := 0 } :
          BenchmarkResults))],
        getattrMetric p.2 (if "mean" = "min" then "min_time" else "mean") ≤
          getattrMetric x.2 (if "mean" = "min" then "min_time" else "mean") :=
  (claimC3_amended
      [("a", { name := "a", durations := [1], runs := 1, warmup := 0 })]
      "mean").2.2.2.1 (by simp) (by simp)

/-- Claim C4, counterexample: the claim quantifies over "the timing
operation benchmark", but the logging variant
(`benchrun/benchmark.py`) performs no validation: called with
`runs = 0 < 1` it silently returns `[]` with no InvalidArgument error
(and no invocation of the callable). -/
theorem claimC4_counterexample :
    loggingBenchmark 0 0 (fun _ => 0) = (Except.ok [], []) := rfl

/-- Claim C4 (amended): the validating variant
(`src/benchrun/core.py`'s `benchmark`) raises TypeMismatch for a
non-callable and ValueRange for `runs < 1` or `warmup < 0`, in each case
before the callable is ever invoked (empty event trace); the logging
variant (`benchrun/benchmark.py`) performs no such validation and never
raises on its own. -/
theorem claimC4_amended (funcCallable : Bool) (runs warmup : ℤ) (clock : ℕ → ℚ) :
    (funcCallable = false →
      coreBenchmark funcCallable runs warmup clock = (.error .typeMismatch, [])) ∧
    (funcCallable = true → runs < 1 →
      coreBenchmark funcCallable runs warmup clock = (.error .valueRange, [])) ∧
    (funcCallable = true → 1 ≤ runs → warmup < 0 →
      coreBenchmark funcCallable runs warmup clock = (.error .valueRange, [])) ∧
    (∀ e, (loggingBenchmark runs warmup clock).1 ≠ .error e) := by
  refine ⟨?_, ?_, ?_, ?_⟩
  · rintro rfl
    rw [coreBenchmark, if_pos (by simp)]
  · rintro rfl hr
    rw [coreBenchmark, if_neg (by simp), if_pos hr]
  · rintro rfl hr hw
    rw [coreBenchmark, if_neg (by simp), if_neg (not_lt.mpr hr), if_pos hw]
  · intro e
    simp [loggingBenchmark]

theorem claimC4_witness :
    coreBenchmark true 0 0 (fun _ => 0) = (.error .valueRange, []) ∧
    coreBenchmark false 5 0 (fun _ => 0) = (.error .typeMismatch, []) ∧
    coreBenchmark true 5 (-1) (fun _ => 0) = (.error .valueRange, []) :=
  ⟨(claimC4_amended true 0 0 (fun _ => 0)).2.1 rfl (by norm_num),
   (claimC4_amended false 5 0 (fun _ => 0)).1 rfl,
   (claimC4_amended true 5 (-1) (fun _ => 0)).2.2.1 rfl (by norm_num) (by norm_num)⟩

/-- Claim C5: for a callable `f`, `runs ≥ 1` and `warmup ≥ 0`, the
benchmark first invokes `f` exactly `warmup` untimed times (the event
trace starts with exactly the warmup calls, no clock reads among them),
then returns exactly `runs` durations in invocation order (the `i`-th
returned value is the difference of the clock reads around timed
invocation `i`), all nonnegative since the clock is monotonic; both
variants agree on valid inputs. -/
theorem claimC5 (clock : ℕ → ℚ) (hmono : Monotone clock) (runs warmup : ℤ)
    (hr : 1 ≤ runs) (hw : 0 ≤ warmup) :
    ∃ ds : List ℚ,
      coreBenchmark true runs warmup clock =
        (.ok ds, List.replicate warmup.toNat BEvent.warmupCall ++
          timedRunEvents runs.toNat) ∧
      loggingBenchmark runs warmup clock =
        (.ok ds, List.replicate warmup.toNat BEvent.warmupCall ++
          timedRunEvents runs.toNat) ∧
      ds.length = runs.toNat ∧
      (∀ d ∈ ds, 0 ≤ d) ∧
      (∀ i < runs.toNat, ds.getD i 0 = clock (2*i+1) - clock (2*i)) := by
  refine ⟨timedDurations clock runs.toNat, ?_, rfl, ?_, ?_, ?_⟩
  · rw [coreBenchmark, if_neg (by simp), if_neg (not_lt.mpr hr),
      if_neg (not_lt.mpr hw)]
    rfl
  · simp [timedDurations]
  · intro d hd
    obtain ⟨i, _, rfl⟩ := List.mem_map.1 hd
    have : clock (2*i) ≤ clock (2*i+1) := hmono (by omega)
    linarith
  · intro i hi
    have hlen : i < ((List.range runs.toNat).map
        (fun i => clock (2*i+1) - clock (2*i))).length := by
      simpa using hi
    rw [timedDurations, List.getD_eq_getElem _ _ hlen]
    simp

theorem claimC5_witness :
    ∃ ds : List ℚ,
      coreBenchmark true 2 1 (fun i => (i : ℚ)) =
        (.ok ds, List.replicate (1 : ℤ).toNat BEvent.warmupCall ++
          timedRunEvents (2 : ℤ).toNat) ∧
      loggingBenchmark 2 1 (fun i => (i : ℚ)) =
        (.ok ds, List.replicate (1 : ℤ).toNat BEvent.warmupCall ++
          timedRunEvents (2 : ℤ).toNat) ∧
      ds.length = (2 : ℤ).toNat ∧
      (∀ d ∈ ds, 0 ≤ d) ∧
      (∀ i < (2 : ℤ).toNat, ds.getD i 0 = ((2*i+1 : ℕ) : ℚ) - ((2*i : ℕ) : ℚ)) :=
  claimC5 (fun i => (i : ℚ))
    (fun a b hab => by exact_mod_cast Nat.cast_le.mpr hab)
    2 1 (by norm_num) (by norm_num)

theorem digitChar_toNat_sub (m : ℕ) (h : m < 10) :
    (Nat.digitChar m).toNat - 48 = m := by
  interval_cases m <;> decide

theorem toDigitsCore_append (fuel : ℕ) : ∀ (n : ℕ) (acc : List Char),
    Nat.toDigitsCore 10 fuel n acc = Nat.toDigitsCore 10 fuel n [] ++ acc := by
  induction fuel with
  | zero => intro n acc; simp [Nat.toDigitsCore]
  | succ fuel ih =>
    intro n acc
    simp only [Nat.toDigitsCore]
    by_cases h : n / 10 = 0
    · simp [h]
    · rw [if_neg h, if_neg h, ih (n / 10) (Nat.digitChar (n % 10) :: acc),
        ih (n / 10) [Nat.digitChar (n % 10)]]
      simp

theorem decVal_toDigitsCore : ∀ (fuel n : ℕ), n < fuel →
    decVal (Nat.toDigitsCore 10 fuel n []) = n := by
  intro fuel
  induction fuel with
  | zero => intro n h; omega
  | succ fuel ih =>
    intro n h
    simp only [Nat.toDigitsCore]
    by_cases h10 : n / 10 = 0
    · rw [if_pos h10]
      have hn : n < 10 := by omega
      have hmod : n % 10 = n := Nat.mod_eq_of_lt hn
      rw [hmod]
      show decStep 0 (Nat.digitChar n) = n
      rw [decStep, digitChar_toNat_sub n hn]
      omega
    · rw [if_neg h10, toDigitsCore_append]
      have hlt : n / 10 < fuel := by
        have h1 : n / 10 < n := Nat.div_lt_self (by omega) (by norm_num)
        omega
      rw [decVal, List.foldl_append]
      show decStep (decVal (Nat.toDigitsCore 10 fuel (n / 10) []))
        (Nat.digitChar (n % 10)) = n
      rw [ih (n / 10) hlt, decStep,
        digitChar_toNat_sub (n % 10) (Nat.mod_lt n (by norm_num))]
      omega

theorem natRepr_inj (a b : ℕ) (h : Nat.repr a = Nat.repr b) : a = b := by
  have hdata : Nat.toDigitsCore 10 (a + 1) a [] = Nat.toDigitsCore 10 (b + 1) b [] :=
    congrArg String.data h
  have ha := decVal_toDigitsCore (a + 1) a (Nat.lt_succ_self a)
  have hb := decVal_toDigitsCore (b + 1) b (Nat.lt_succ_self b)
  rw [hdata, hb] at ha
  exact ha.symm

theorem addSuffix_inj (name : String) (a b : ℕ)
    (h : addSuffix name a = addSuffix name b) : a = b := by
  have hd := congrArg String.data h
  simp only [addSuffix, String.data_append, List.append_assoc] at hd
  have h1 := List.append_cancel_left hd
  have h2 := List.append_cancel_left h1
  exact natRepr_inj a b (String.ext h2)

theorem exists_unused_suffix (name : String) (keys : List String) :
    ∃ k, 1 ≤ k ∧ k ≤ keys.length + 1 ∧ addSuffix name k ∉ keys := by
  by_contra hcon
  push_neg at hcon
  have hmaps : ∀ i ∈ Finset.range (keys.length + 1),
      addSuffix name (i + 1) ∈ keys.toFinset := by
    intro i hi
    rw [List.mem_toFinset]
    exact hcon (i + 1) (by omega) (by
      have := Finset.mem_range.1 hi
      omega)
  have hinj : Set.InjOn (fun i => addSuffix name (i + 1))
      (Finset.range (keys.length + 1)) := by
    intro a _ b _ hab
    have := addSuffix_inj name (a + 1) (b + 1) hab
    omega
  have hcard := Finset.card_le_card_of_injOn _ hmaps hinj
  rw [Finset.card_range] at hcard
  have := keys.toFinset_card_le
  omega

theorem uniquifyLoop_spec (original : String) (keys : List String) :
    ∀ (fuel counter : ℕ),
      (∃ k, counter ≤ k ∧ k < counter + fuel ∧ addSuffix original k ∉ keys) →
      ∃ k, counter ≤ k ∧
        uniquifyLoop original keys counter fuel = addSuffix original k ∧
        addSuffix original k ∉ keys ∧
        ∀ j, counter ≤ j → j < k → addSuffix original j ∈ keys := by
  intro fuel
  induction fuel with
  | zero =>
    rintro counter ⟨k, hk1, hk2, _⟩
    omega
  | succ fuel ih =>
    intro counter hex
    simp only [uniquifyLoop]
    by_cases hmem : addSuffix original counter ∈ keys
    · rw [if_pos hmem]
      obtain ⟨k, hk1, hk2, hk3⟩ := hex
      have hkne : k ≠ counter := fun hkc => hk3 (hkc ▸ hmem)
      obtain ⟨k', hk'1, hk'2, hk'3, hk'4⟩ :=
        ih (counter + 1) ⟨k, by omega, by omega, hk3⟩
      refine ⟨k', by omega, hk'2, hk'3, ?_⟩
      intro j hj1 hj2
      rcases Nat.eq_or_lt_of_le hj1 with rfl | hj
      · exact hmem
      · exact hk'4 j (by omega) hj2
    · rw [if_neg hmem]
      exact ⟨counter, le_refl _, rfl, hmem, fun j h1 h2 => by omega⟩

/-- Claim C8: `add_implementation` stores the callable under a
de-duplicated key: the requested name itself when unused, otherwise the
first unused of `name_1`, `name_2`, ...; the stored key is never already
present; and in particular a second registration under an already-used
name `"impl"` is stored as `"impl_1"`. -/
theorem claimC8 (st : BenchmarkRunner) (func : ImplBehavior)
    (funcName : Option String) (n : String) :
    ((st.add_implementation func funcName (some n)).implementations =
      st.implementations ++
        [(uniquify n (st.implementations.map Prod.fst), func)]) ∧
    uniquify n (st.implementations.map Prod.fst) ∉
      st.implementations.map Prod.fst ∧
    (n ∉ st.implementations.map Prod.fst →
      uniquify n (st.implementations.map Prod.fst) = n) ∧
    (n ∈ st.implementations.map Prod.fst →
      ∃ k, 1 ≤ k ∧
        uniquify n (st.implementations.map Prod.fst) = addSuffix n k ∧
        addSuffix n k ∉ st.implementations.map Prod.fst ∧
        ∀ j, 1 ≤ j → j < k → addSuffix n j ∈ st.implementations.map Prod.fst) ∧
    uniquify "impl" ["impl"] = "impl_1" := by
  have main : ∀ (keys : List String) (m : String),
      uniquify m keys ∉ keys ∧
      (m ∉ keys → uniquify m keys = m) ∧
      (m ∈ keys → ∃ k, 1 ≤ k ∧ uniquify m keys = addSuffix m k ∧
        addSuffix m k ∉ keys ∧ ∀ j, 1 ≤ j → j < k → addSuffix m j ∈ keys) := by
    intro keys m
    by_cases hmem : m ∈ keys
    · obtain ⟨k0, hk01, hk02, hk03⟩ := exists_unused_suffix m keys
      obtain ⟨k, hk1, hk2, hk3, hk4⟩ :=
        uniquifyLoop_spec m keys (keys.length + 1) 1 ⟨k0, hk01, by omega, hk03⟩
      rw [uniquify, if_pos hmem]
      exact ⟨hk2 ▸ hk3, fun hn => absurd hmem hn,
        fun _ => ⟨k, hk1, hk2, hk3, hk4⟩⟩
    · rw [uniquify, if_neg hmem]
      exact ⟨hmem, fun _ => rfl, fun hn => absurd hn hmem⟩
  obtain ⟨h1, h2, h3⟩ := main (st.implementations.map Prod.fst) n
  refine ⟨rfl, h1, h2, h3, ?_⟩
  rfl

theorem claimC8_witness :
    uniquify "impl" ((BenchmarkRunner.init 1 0).implementations.map Prod.fst) =
      "impl" :=
  (claimC8 (BenchmarkRunner.init 1 0) (Except.ok []) none "impl").2.2.1
    (by simp [BenchmarkRunner.init])

theorem runLoop_spec (runs warmup : ℕ) :
    ∀ (impls : List (String × ImplBehavior)) (acc : List (String × BenchmarkResults)),
      ((∃ p ∈ impls, p.2 = Except.error ()) →
        runLoop runs warmup impls acc =
          (Except.error (), acc ++ processedRecords runs warmup impls)) ∧
      ((∀ p ∈ impls, p.2 ≠ Except.error ()) →
        runLoop runs warmup impls acc =
          (Except.ok (acc ++ processedRecords runs warmup impls),
            acc ++ processedRecords runs warmup impls)) := by
  intro impls
  induction impls with
  | nil =>
    intro acc
    constructor
    · rintro ⟨p, hp, _⟩
      simp at hp
    · intro _
      simp [runLoop, processedRecords]
  | cons hd tl ih =>
    intro acc
    obtain ⟨name, beh⟩ := hd
    cases beh with
    | error e =>
      cases e
      constructor
      · intro _
        simp [runLoop, processedRecords]
      · intro hall
        exact absurd rfl (hall (name, Except.error ()) (List.mem_cons_self _ _))
    | ok ds =>
      constructor
      · rintro ⟨p, hp, hperr⟩
        rcases List.mem_cons.1 hp with rfl | hp
        · exact absurd hperr (by simp)
        · simp only [runLoop]
          rw [((ih _).1) ⟨p, hp, hperr⟩]
          simp [processedRecords, List.append_assoc]
      · intro hall
        simp only [runLoop]
        rw [((ih _).2) (fun p hp => hall p (List.mem_cons_of_mem _ hp))]
        simp [processedRecords, List.append_assoc]

theorem processedRecords_unannotated (runs warmup : ℕ)
    (impls : List (String × ImplBehavior)) :
    ∀ q ∈ processedRecords runs warmup impls,
      q.2.speedup = none ∧ q.2.relative_performance = none := by
  induction impls with
  | nil => simp [processedRecords]
  | cons hd tl ih =>
    obtain ⟨name, beh⟩ := hd
    cases beh with
    | error e => simp [processedRecords]
    | ok ds =>
      intro q hq
      simp only [processedRecords] at hq
      rcases List.mem_cons.1 hq with rfl | hq
      · exact ⟨rfl, rfl⟩
      · exact ih q hq

/-- Claim C9, counterexample: a `run()` that fails partway (second
registered callable raises) leaves the partial Comparison Set built from
the first callable stored and queryable through `get_results()` — not
all-or-nothing. -/
theorem claimC9_counterexample :
    (({ runs := 1, warmup := 0,
        implementations := [("a", Except.ok [1]), ("b", Except.error ())],
        results := none, impl_counter := 0 } : BenchmarkRunner).run).1 =
      RunOutcome.raisedFromCallable ∧
    (({ runs := 1, warmup := 0,
        implementations := [("a", Except.ok [1]), ("b", Except.error ())],
        results := none, impl_counter := 0 } : BenchmarkRunner).run).2.get_results =
      some [("a", { name := "a", durations := [1], runs := 1, warmup := 0 })] := by
  constructor <;> rfl

/-- Claim C9 (amended): errors are raised synchronously — `run()` on an
empty runner raises before touching `self.results`, and an exception from
a callable propagates immediately — but a failed `run()` is not
all-or-nothing: the partial, unannotated Comparison Set accumulated
before the failure stays stored and `get_results()` exposes it; only a
run with no raising callable stores the complete annotated set. -/
theorem claimC9_amended (st : BenchmarkRunner) :
    (st.implementations.isEmpty = true →
      st.run = (RunOutcome.raisedNoImplementations, st)) ∧
    (st.implementations.isEmpty = false →
      ((∃ p ∈ st.implementations, p.2 = Except.error ()) →
        st.run.1 = RunOutcome.raisedFromCallable ∧
        st.run.2.get_results =
          some (processedRecords st.runs st.warmup st.implementations) ∧
        ∀ q ∈ processedRecords st.runs st.warmup st.implementations,
          q.2.speedup = none ∧ q.2.relative_performance = none) ∧
      ((∀ p ∈ st.implementations, p.2 ≠ Except.error ()) →
        st.run = (RunOutcome.ok (calculate_comparisons
            (processedRecords st.runs st.warmup st.implementations)),
          { st with results := some (calculate_comparisons (processedRecords st.runs st.warmup st.implementations)) }))) := by
  refine ⟨?_, ?_⟩
  · intro hemp
    rw [BenchmarkRunner.run, if_pos hemp]
  · intro hemp
    have hrl := runLoop_spec st.runs st.warmup st.implementations []
    constructor
    · intro hex
      have hrun : st.run = (RunOutcome.raisedFromCallable,
          { st with results := some (processedRecords st.runs st.warmup st.implementations) }) := by
        rw [BenchmarkRunner.run, if_neg (by simp [hemp]), hrl.1 hex]
        simp
      rw [hrun]
      exact ⟨rfl, rfl, processedRecords_unannotated _ _ _⟩
    · intro hall
      rw [BenchmarkRunner.run, if_neg (by simp [hemp]), hrl.2 hall]
      simp

theorem claimC9_witness :
    (({ runs := 1, warmup := 0,
        implementations := [("a", Except.ok [1])],
        results := none, impl_counter := 0 } : BenchmarkRunner).run =
      (RunOutcome.ok (calculate_comparisons (processedRecords 1 0
          [("a", Except.ok [1])])),
        ({ runs := 1, warmup := 0,
           implementations := [("a", Except.ok [1])],
           results := some (calculate_comparisons (processedRecords 1 0 [("a", Except.ok [1])])),
           impl_counter := 0 } : BenchmarkRunner))) :=
  ((claimC9_amended
      { runs := 1, warmup := 0,
        implementations := [("a", Except.ok [1])],
        results := none, impl_counter := 0 }).2 (by rfl)).2
    (by
      intro p hp
      simp only [List.mem_cons, List.not_mem_nil, or_false] at hp
      subst hp
      simp)

/-- Claim C10: both renderers test truthiness of the `speedup` field
rather than its presence, so an entry whose `speedup` is exactly `0.0`
is rendered like an entry that was never annotated: `format_results_table`
omits its Speedup line (the entry block is the 7 base lines and equals the
block of the un-annotated record), and `print_comparison` renders its
speedup cell as `"N/A"` (its whole row equals the un-annotated row). -/
theorem claimC10 (results : List (String × BenchmarkResults)) (sort_by : String)
    (show_all_stats : Bool) (name : String) (r : BenchmarkResults)
    (hmem : (name, r) ∈ results) (h0 : r.speedup = some 0) :
    resultLines name r = resultLines name { r with speedup := none } ∧
    (resultLines name r).length = 7 ∧
    speedupCell r = "N/A" ∧
    speedupCell { r with speedup := none } = "N/A" ∧
    format_results_table results sort_by =
      ["", "Benchmark Results", String.mk (List.replicate 50 '=')] ++
        (sortResults results (normalizeSortBy sort_by)).flatMap
          (fun p => resultLines p.1 p.2) ∧
    ∃ w b, comparisonRow w show_all_stats name r b ∈
        print_comparison results sort_by show_all_stats ∧
      comparisonRow w show_all_stats name r b =
        comparisonRow w show_all_stats name { r with speedup := none } b := by
  have hne' : results ≠ [] := by
    rintro rfl
    simp at hmem
  have htr : pyTruthy r.speedup = false := by rw [h0]; rfl
  have htr2 : pyTruthy ({ r with speedup := none } : BenchmarkResults).speedup = false := rfl
  have hcell : speedupCell r = "N/A" := by
    rw [speedupCell, htr]
    rfl
  have hcell2 : speedupCell { r with speedup := none } = "N/A" := rfl
  have hsorted : (name, r) ∈ sortResults results (normalizeSortBy sort_by) := by
    rw [sortResults]
    exact (List.mergeSort_perm results _).mem_iff.mpr hmem
  refine ⟨?_, ?_, hcell, hcell2, ?_, ?_⟩
  · simp only [resultLines, htr, htr2]
    rfl
  · simp only [resultLines, htr]
    rfl
  · rw [format_results_table, if_neg hne']
  · refine ⟨max (pyNatMax (results.map (fun p => p.1.length))) "Implementation".length,
      decide (name = ((sortResults results (normalizeSortBy sort_by)).headD default).1),
      ?_, ?_⟩
    · simp only [print_comparison, if_neg hne']
      exact List.mem_append_left _ (List.mem_append_left _
        (List.mem_append_left _ (List.mem_append_right _
          (List.mem_map.mpr ⟨(name, r), hsorted, rfl⟩))))
    · simp only [comparisonRow, speedupCell, htr, htr2]
      rfl

theorem claimC10_witness :
    speedupCell
      { name := "a", durations := [1], runs := 1, warmup := 0,
        speedup := some 0, relative_performance := some 0 } = "N/A" :=
  (claimC10
      [("a",
        { name := "a", durations := [1], runs := 1, warmup := 0,
          speedup := some 0, relative_performance := some 0 })] "mean" true "a"
      { name := "a", durations := [1], runs := 1, warmup := 0,
        speedup := some 0, relative_performance := some 0 }
      (by simp) rfl).2.2.1

end Benchrun
